import Mathlib

/-!
Verification of the nc-monitoring screenshot-health pipeline.

Shallow embedding of `src/checks/screenshot_health.py`,
`src/checks/version_by_zone.py` and `src/clients/sheets_client.py`.
Python `datetime.time` values become `TOD` (hour/minute/second as `Nat`),
Python exceptions become `Except String`, JSON payloads become typed
optional-field structures matching exactly the keys the code reads,
floats become `ℚ`, and ambient clock / network effects become explicit
environment parameters.
-/

namespace NCMon

/-! ## Time of day (`datetime.time`) -/

/-- A time of day, as produced by Python's `datetime.time`. Fields are
kept unbounded here; `mkTime` (the `time(...)` constructor) validates. -/
structure TOD where
  hour : Nat
  minute : Nat
  second : Nat
deriving DecidableEq

/-- Seconds since midnight. For in-range fields, Python's lexicographic
`time` comparison coincides with comparison of this value. -/
def TOD.toSecs (t : TOD) : Nat := t.hour * 3600 + t.minute * 60 + t.second

/-- Python's `time(hour=, minute=, second=)` constructor: raises
`ValueError` on out-of-range fields. -/
def mkTime (h m s : Nat) : Except String TOD :=
  if h ≤ 23 ∧ m ≤ 59 ∧ s ≤ 59 then .ok ⟨h, m, s⟩ else .error "ValueError"

/-! ## `strptime` for the two store-hours formats

Python's `_strptime` compiles each directive to a regex alternation and
requires the whole string to be consumed.  `%I` is `1[0-2]|0[1-9]|[1-9]`,
`%H` is `2[0-3]|[0-1]\d|\d`, `%M` is `[0-5]\d|\d`, a literal space is one
or more whitespace characters, and `%p` is AM/PM case-insensitively. -/

def digitVal (c : Char) : Nat := c.toNat - 48

def matchHour12 : List Char → Option (Nat × List Char)
  | '1' :: c :: rest =>
    if c = '0' ∨ c = '1' ∨ c = '2' then some (10 + digitVal c, rest)
    else some (1, c :: rest)
  | '0' :: c :: rest =>
    if '1' ≤ c ∧ c ≤ '9' then some (digitVal c, rest) else none
  | c :: rest =>
    if '1' ≤ c ∧ c ≤ '9' then some (digitVal c, rest) else none
  | [] => none

def matchHour24 : List Char → Option (Nat × List Char)
  | '2' :: c :: rest =>
    if '0' ≤ c ∧ c ≤ '3' then some (20 + digitVal c, rest)
    else some (2, c :: rest)
  | a :: b :: rest =>
    if (a = '0' ∨ a = '1') ∧ b.isDigit then some (digitVal a * 10 + digitVal b, rest)
    else if a.isDigit then some (digitVal a, b :: rest)
    else none
  | [a] => if a.isDigit then some (digitVal a, []) else none
  | [] => none

def matchMin : List Char → Option (Nat × List Char)
  | a :: b :: rest =>
    if ('0' ≤ a ∧ a ≤ '5') ∧ b.isDigit then some (digitVal a * 10 + digitVal b, rest)
    else if a.isDigit then some (digitVal a, b :: rest)
    else none
  | [a] => if a.isDigit then some (digitVal a, []) else none
  | [] => none

def matchSec : List Char → Option (Nat × List Char)
  | '6' :: c :: rest =>
    if c = '0' ∨ c = '1' then some (60 + digitVal c, rest)
    else some (6, c :: rest)
  | a :: b :: rest =>
    if ('0' ≤ a ∧ a ≤ '5') ∧ b.isDigit then some (digitVal a * 10 + digitVal b, rest)
    else if a.isDigit then some (digitVal a, b :: rest)
    else none
  | [a] => if a.isDigit then some (digitVal a, []) else none
  | [] => none

def matchDayNum : List Char → Option (Nat × List Char)
  | '3' :: c :: rest =>
    if c = '0' ∨ c = '1' then some (30 + digitVal c, rest)
    else some (3, c :: rest)
  | a :: b :: rest =>
    if (a = '1' ∨ a = '2') ∧ b.isDigit then some (digitVal a * 10 + digitVal b, rest)
    else if a = '0' ∧ '1' ≤ b ∧ b ≤ '9' then some (digitVal b, rest)
    else if '1' ≤ a ∧ a ≤ '9' then some (digitVal a, b :: rest)
    else none
  | [a] => if '1' ≤ a ∧ a ≤ '9' then some (digitVal a, []) else none
  | [] => none

def matchMonth : List Char → Option (Nat × List Char)
  | '1' :: c :: rest =>
    if c = '0' ∨ c = '1' ∨ c = '2' then some (10 + digitVal c, rest)
    else some (1, c :: rest)
  | '0' :: c :: rest =>
    if '1' ≤ c ∧ c ≤ '9' then some (digitVal c, rest) else none
  | c :: rest =>
    if '1' ≤ c ∧ c ≤ '9' then some (digitVal c, rest) else none
  | [] => none

def matchLit (c : Char) : List Char → Option (List Char)
  | a :: rest => if a = c then some rest else none
  | [] => none

def skipWs1 : List Char → Option (List Char)
  | c :: rest => if c.isWhitespace then some (rest.dropWhile Char.isWhitespace) else none
  | [] => none

def matchAmPm : List Char → Option (Bool × List Char)
  | a :: b :: rest =>
    if (a = 'A' ∨ a = 'a') ∧ (b = 'M' ∨ b = 'm') then some (false, rest)
    else if (a = 'P' ∨ a = 'p') ∧ (b = 'M' ∨ b = 'm') then some (true, rest)
    else none
  | _ => none

/-- `datetime.strptime(s, "%I:%M %p").time()`. -/
def strptimeIMp (s : String) : Option TOD := do
  let (h, r1) ← matchHour12 s.data
  let r2 ← matchLit ':' r1
  let (m, r3) ← matchMin r2
  let r4 ← skipWs1 r3
  let (pm, r5) ← matchAmPm r4
  if r5 = [] then some ⟨h % 12 + (if pm then 12 else 0), m, 0⟩ else none

/-- `datetime.strptime(s, "%H:%M").time()`. -/
def strptimeHM (s : String) : Option TOD := do
  let (h, r1) ← matchHour24 s.data
  let r2 ← matchLit ':' r1
  let (m, r3) ← matchMin r2
  if r3 = [] then some ⟨h, m, 0⟩ else none

/-! ## Store-hours schedule data model

Typed image of the JSON value after `json.loads`, carrying exactly the
keys `is_store_open` reads (`status`, `day`, `periods`,
`openingHourData`/`closingHourData` with `hour`/`minute`/`second`, and
the legacy string fields `open`/`close` — named `openStr`/`closeStr`
here because `open` is a Lean keyword). -/

structure HourData where
  hour : Option Nat
  minute : Option Nat
  second : Option Nat

structure Period where
  openingHourData : Option HourData
  closingHourData : Option HourData
  openStr : Option String
  closeStr : Option String

structure Day where
  status : Option Bool
  day : Option String
  periods : Option (List Period)

/-- The `storeHours` argument as seen by `is_store_open`: `absent` is a
falsy string (`None`/`""`), `invalid` is a JSON decode failure, and
`parsed` is a successfully decoded list of day objects. -/
inductive StoreHours
  | absent
  | invalid
  | parsed (days : List Day)

/-- What `datetime.now(tz)` yields, restricted to the two pieces
`is_store_open` uses: `now.strftime("%A")` and `now.time()`. -/
structure LocalNow where
  dayName : String
  tod : TOD

/-- The ambient clock: for each timezone name that `pytz` recognizes,
the current local day name and time of day (`none` = unknown zone). -/
abbrev TzEnv := String → Option LocalNow

/-- `pytz.timezone(timezone_name or "US/Central")` with the `except`
fallback to `pytz.timezone("US/Central")`, composed with
`datetime.now(tz)`.  `none` means even the fallback zone is unknown
(in which case the `except` branch itself raises). -/
def resolveTz (env : TzEnv) (name : String) : Option LocalNow :=
  match env (if name = "" then "US/Central" else name) with
  | some ln => some ln
  | none => env "US/Central"

/-- `_parse_period`: returns `(opening_time, closing_time)` or `None`;
an out-of-range `time(...)` construction raises. -/
def _parse_period (p : Period) : Except String (Option (TOD × TOD)) :=
  match p.openingHourData, p.closingHourData with
  | some o, some c =>
    match mkTime (o.hour.getD 0) (o.minute.getD 0) (o.second.getD 0) with
    | .error e => .error e
    | .ok ot =>
      match mkTime (c.hour.getD 0) (c.minute.getD 0) (c.second.getD 0) with
      | .error e => .error e
      | .ok ct => .ok (some (ot, ct))
  | _, _ =>
    match p.openStr, p.closeStr with
    | some os, some cs =>
      if os = "" ∨ cs = "" then .ok none
      else
        match strptimeIMp os, strptimeIMp cs with
        | some ot, some ct => .ok (some (ot, ct))
        | _, _ =>
          match strptimeHM os, strptimeHM cs with
          | some ot, some ct => .ok (some (ot, ct))
          | _, _ => .ok none
    | _, _ => .ok none

/-- One period's open determination (the body of the inner loop of
`is_store_open`): same-day span when `opening <= closing`, otherwise
the overnight span. -/
def periodOpen (now : LocalNow) (p : Period) : Except String Bool :=
  match _parse_period p with
  | .error e => .error e
  | .ok none => .ok false
  | .ok (some (ot, ct)) =>
    if ot.toSecs ≤ ct.toSecs then
      .ok (decide (ot.toSecs ≤ now.tod.toSecs ∧ now.tod.toSecs ≤ ct.toSecs))
    else
      .ok (decide (now.tod.toSecs ≥ ot.toSecs ∨ now.tod.toSecs ≤ ct.toSecs))

def scanPeriods (now : LocalNow) : List Period → Except String Bool
  | [] => .ok false
  | p :: rest =>
    match periodOpen now p with
    | .error e => .error e
    | .ok true => .ok true
    | .ok false => scanPeriods now rest

/-- Day filter of `is_store_open`: skip days whose `status` is false and
days whose `day` name is truthy and differs from today's name
(`if day_name and day_name != current_day_name: continue`) — a missing
or empty day name is falsy in Python, so such a day entry matches every
weekday. -/
def dayMatches (now : LocalNow) (d : Day) : Bool :=
  d.status.getD true && (match d.day with
    | some n => n == "" || n == now.dayName
    | none => true)

def scanDays (now : LocalNow) : List Day → Except String Bool
  | [] => .ok false
  | d :: rest =>
    if dayMatches now d then
      match scanPeriods now (d.periods.getD []) with
      | .error e => .error e
      | .ok true => .ok true
      | .ok false => scanDays now rest
    else scanDays now rest

/-- `is_store_open(store_hours_json, timezone_name)`.  `.error` models a
Python exception propagating to the caller. -/
def is_store_open (env : TzEnv) (storeHours : StoreHours) (timezone_name : String) :
    Except String Bool :=
  match storeHours with
  | .absent => .ok false
  | .invalid => .ok false
  | .parsed days =>
    match resolveTz env timezone_name with
    | none => .error "UnknownTimeZoneError"
    | some now => scanDays now days

/-! ## Store-hours helper constructions and lemmas -/

/-- A period in the structured `openingHourData`/`closingHourData` format. -/
def hourPeriod (o c : TOD) : Period :=
  { openingHourData := some ⟨some o.hour, some o.minute, some o.second⟩
    closingHourData := some ⟨some c.hour, some c.minute, some c.second⟩
    openStr := none
    closeStr := none }

/-- A one-period enabled day entry. -/
def singleDay (name : String) (o c : TOD) : Day :=
  { status := some true, day := some name, periods := some [hourPeriod o c] }

/-- Field ranges accepted by Python's `time` constructor. -/
def validTOD (t : TOD) : Prop := t.hour ≤ 23 ∧ t.minute ≤ 59 ∧ t.second ≤ 59

instance (t : TOD) : Decidable (validTOD t) := by unfold validTOD; infer_instance

lemma parse_hourPeriod (o c : TOD) (ho : validTOD o) (hc : validTOD c) :
    _parse_period (hourPeriod o c) = .ok (some (o, c)) := by
  obtain ⟨h1, h2, h3⟩ := ho
  obtain ⟨h4, h5, h6⟩ := hc
  simp [hourPeriod, _parse_period, mkTime, h1, h2, h3, h4, h5, h6]

lemma scanPeriods_one (now : LocalNow) (p : Period) (b : Bool)
    (h : periodOpen now p = .ok b) : scanPeriods now [p] = .ok b := by
  cases b <;> simp [scanPeriods, h]

lemma scanDays_one (now : LocalNow) (d : Day) (b : Bool)
    (hm : dayMatches now d = true)
    (hs : scanPeriods now (d.periods.getD []) = .ok b) :
    scanDays now [d] = .ok b := by
  cases b <;> simp [scanDays, hm, hs]

/-- The open determination of a single-day, single-period structured
schedule: the same-day span when `opening ≤ closing`, the overnight
(midnight-crossing) span otherwise; no grace period appears. -/
lemma single_span (env : TzEnv) (tzName dayName : String) (o c t : TOD)
    (ho : validTOD o) (hc : validTOD c)
    (henv : resolveTz env tzName = some ⟨dayName, t⟩) :
    is_store_open env (.parsed [singleDay dayName o c]) tzName =
      .ok (if o.toSecs ≤ c.toSecs
           then decide (o.toSecs ≤ t.toSecs ∧ t.toSecs ≤ c.toSecs)
           else decide (t.toSecs ≥ o.toSecs ∨ t.toSecs ≤ c.toSecs)) := by
  have hp : periodOpen ⟨dayName, t⟩ (hourPeriod o c) =
      .ok (if o.toSecs ≤ c.toSecs
           then decide (o.toSecs ≤ t.toSecs ∧ t.toSecs ≤ c.toSecs)
           else decide (t.toSecs ≥ o.toSecs ∨ t.toSecs ≤ c.toSecs)) := by
    simp only [periodOpen, parse_hourPeriod o c ho hc]
    split <;> rfl
  have hm : dayMatches ⟨dayName, t⟩ (singleDay dayName o c) = true := by
    simp [dayMatches, singleDay]
  have hs := scanPeriods_one ⟨dayName, t⟩ (hourPeriod o c) _ hp
  simp only [is_store_open, henv]
  exact scanDays_one ⟨dayName, t⟩ (singleDay dayName o c) _ hm
    (by simpa [singleDay] using hs)

/-- If every period of every matching day parses, `is_store_open`
cannot raise. -/
def periodParses (p : Period) : Bool :=
  match _parse_period p with
  | .ok _ => true
  | .error _ => false

lemma periodOpen_ok (now : LocalNow) (p : Period) (h : periodParses p = true) :
    ∃ b, periodOpen now p = .ok b := by
  unfold periodParses at h
  unfold periodOpen
  rcases hp : _parse_period p with e | v
  · rw [hp] at h; simp at h
  · rcases v with _ | ⟨ot, ct⟩
    · exact ⟨false, rfl⟩
    · dsimp only
      split <;> exact ⟨_, rfl⟩

lemma scanPeriods_ok (now : LocalNow) (ps : List Period)
    (h : ∀ p ∈ ps, periodParses p = true) : ∃ b, scanPeriods now ps = .ok b := by
  induction ps with
  | nil => exact ⟨false, rfl⟩
  | cons p rest ih =>
    obtain ⟨b, hb⟩ := periodOpen_ok now p (h p (by simp))
    obtain ⟨b', hb'⟩ := ih (fun q hq => h q (by simp [hq]))
    cases b
    · exact ⟨b', by simp [scanPeriods, hb, hb']⟩
    · exact ⟨true, by simp [scanPeriods, hb]⟩

lemma scanDays_ok (now : LocalNow) (days : List Day)
    (h : ∀ d ∈ days, ∀ p ∈ d.periods.getD [], periodParses p = true) :
    ∃ b, scanDays now days = .ok b := by
  induction days with
  | nil => exact ⟨false, rfl⟩
  | cons d rest ih =>
    obtain ⟨b', hb'⟩ := ih (fun e he => h e (by simp [he]))
    by_cases hm : dayMatches now d = true
    · obtain ⟨b, hb⟩ := scanPeriods_ok now (d.periods.getD [])
        (fun p hp => h d (by simp) p hp)
      cases b
      · exact ⟨b', by simp [scanDays, hm, hb, hb']⟩
      · exact ⟨true, by simp [scanDays, hm, hb]⟩
    · exact ⟨b', by simp [scanDays, hm, hb']⟩

lemma scanPeriods_false (now : LocalNow) (ps : List Period)
    (h : ∀ p ∈ ps, periodOpen now p = .ok false) :
    scanPeriods now ps = .ok false := by
  induction ps with
  | nil => rfl
  | cons p rest ih =>
    simp [scanPeriods, h p (by simp), ih (fun q hq => h q (by simp [hq]))]

lemma scanDays_false (now : LocalNow) (days : List Day)
    (h : ∀ d ∈ days, dayMatches now d = true →
      ∀ p ∈ d.periods.getD [], periodOpen now p = .ok false) :
    scanDays now days = .ok false := by
  induction days with
  | nil => rfl
  | cons d rest ih =>
    have ihr := ih (fun e he hm => h e (by simp [he]) hm)
    by_cases hm : dayMatches now d = true
    · simp [scanDays, hm, ihr,
        scanPeriods_false now (d.periods.getD []) (h d (by simp) hm)]
    · simp [scanDays, hm, ihr]

/-! ## Claims C2, C3, C4 -/

/-- Clock environment used in the C2 counterexample: in zone
`America/Denver` it is Monday 09:02:00. -/
def envC2 : TzEnv :=
  fun s => if s = "America/Denver" then some ⟨"Monday", ⟨9, 2, 0⟩⟩ else none

/-- Monday 09:00–17:00 in the structured format. -/
def schedC2 : List Day := [singleDay "Monday" ⟨9, 0, 0⟩ ⟨17, 0, 0⟩]

/-- C2 counterexample: the claim says that at 09:02, two minutes after
the 09:00 opening, `is_open` returns false (5-minute grace period).  The
code has no grace-period logic: with a Monday 09:00–17:00 schedule and
local time Monday 09:02, `is_store_open` returns `True`. -/
theorem C2_counterexample :
    is_store_open envC2 (.parsed schedC2) "America/Denver" = .ok true := rfl

/-- C2 amended: there is no grace period.  For a single-period schedule
with `opening ≤ closing`, any instant with
`opening ≤ now ≤ closing` — including the first 5 minutes after
opening — yields `is_open = true`. -/
theorem C2_amended (env : TzEnv) (tzName dayName : String) (o c t : TOD)
    (ho : validTOD o) (hc : validTOD c)
    (henv : resolveTz env tzName = some ⟨dayName, t⟩)
    (hoc : o.toSecs ≤ c.toSecs)
    (h1 : o.toSecs ≤ t.toSecs) (h2 : t.toSecs ≤ c.toSecs) :
    is_store_open env (.parsed [singleDay dayName o c]) tzName = .ok true := by
  rw [single_span env tzName dayName o c t ho hc henv]
  simp [hoc, h1, h2]

/-- Clock environment for the C2 witness: zone `A` reads Monday
09:02:00 and zone `B` reads Monday 09:06:00. -/
def envC2b : TzEnv :=
  fun s =>
    if s = "A" then some ⟨"Monday", ⟨9, 2, 0⟩⟩
    else if s = "B" then some ⟨"Monday", ⟨9, 6, 0⟩⟩
    else none

/-- C2 witness: with a Monday 09:00–17:00 schedule, `is_open` is true
both at 09:02 and at 09:06. -/
theorem C2_witness :
    is_store_open envC2b (.parsed [singleDay "Monday" ⟨9, 0, 0⟩ ⟨17, 0, 0⟩]) "A" =
      .ok true ∧
    is_store_open envC2b (.parsed [singleDay "Monday" ⟨9, 0, 0⟩ ⟨17, 0, 0⟩]) "B" =
      .ok true :=
  ⟨C2_amended envC2b "A" "Monday" ⟨9, 0, 0⟩ ⟨17, 0, 0⟩ ⟨9, 2, 0⟩
      (by decide) (by decide) rfl (by decide) (by decide) (by decide),
    C2_amended envC2b "B" "Monday" ⟨9, 0, 0⟩ ⟨17, 0, 0⟩ ⟨9, 6, 0⟩
      (by decide) (by decide) rfl (by decide) (by decide) (by decide)⟩

/-- C3: for a parsed period, when `opening ≤ closing` the evaluator
reports open exactly when `opening ≤ now ≤ closing` (same-day span),
and when `opening > closing` exactly when `now ≥ opening` or
`now ≤ closing` (overnight span). -/
theorem C3_span (env : TzEnv) (tzName dayName : String) (o c t : TOD)
    (ho : validTOD o) (hc : validTOD c)
    (henv : resolveTz env tzName = some ⟨dayName, t⟩) :
    is_store_open env (.parsed [singleDay dayName o c]) tzName =
      .ok (if o.toSecs ≤ c.toSecs
           then decide (o.toSecs ≤ t.toSecs ∧ t.toSecs ≤ c.toSecs)
           else decide (t.toSecs ≥ o.toSecs ∨ t.toSecs ≤ c.toSecs)) :=
  single_span env tzName dayName o c t ho hc henv

/-- Clock environment for the C3 witness: zone `Z` reads Friday
23:30:00. -/
def envC3 : TzEnv :=
  fun s => if s = "Z" then some ⟨"Friday", ⟨23, 30, 0⟩⟩ else none

/-- C3 witness: a 22:00–06:00 overnight period is open at Friday
23:30. -/
theorem C3_witness :
    is_store_open envC3 (.parsed [singleDay "Friday" ⟨22, 0, 0⟩ ⟨6, 0, 0⟩]) "Z" =
      .ok true := by
  rw [C3_span envC3 "Z" "Friday" ⟨22, 0, 0⟩ ⟨6, 0, 0⟩ ⟨23, 30, 0⟩
    (by decide) (by decide) rfl]
  rfl

/-- Clock environment for C4: only `US/Central` is a known zone, where
it is Monday noon. -/
def envC4 : TzEnv :=
  fun s => if s = "US/Central" then some ⟨"Monday", ⟨12, 0, 0⟩⟩ else none

/-- An always-open schedule: one day entry with no `day` name (matches
every weekday), default status, one 00:00:00–23:59:59 period. -/
def schedOpenAll : List Day :=
  [{ status := none, day := none,
     periods := some [hourPeriod ⟨0, 0, 0⟩ ⟨23, 59, 59⟩] }]

/-- A schedule whose period carries an out-of-range `hour` field. -/
def schedBadHour : List Day :=
  [{ status := none, day := none,
     periods := some [{ openingHourData := some ⟨some 25, none, none⟩
                        closingHourData := some ⟨some 17, none, none⟩
                        openStr := none, closeStr := none }] }]

/-- C4 counterexample: the claim says an unrecognized timezone makes
`is_open` return false and that it never throws.  Both parts fail:
(1) with an always-open schedule and unknown zone `Bogus/Zone`, the code
falls back to `US/Central` and returns `True`, not false; (2) a
schedule whose `openingHourData.hour` is 25 makes the `time(...)`
constructor raise `ValueError`, which propagates to the caller. -/
theorem C4_counterexample :
    is_store_open envC4 (.parsed schedOpenAll) "Bogus/Zone" = .ok true ∧
    is_store_open envC4 (.parsed schedBadHour) "US/Central" =
      .error "ValueError" :=
  ⟨rfl, rfl⟩

/-- C4 amended: `is_store_open` returns false for an absent or
unparseable schedule and when no day/period matches or is open; an
unrecognized timezone name does not fail closed but falls back to
`US/Central` and evaluates the schedule there; and it raises no error
provided every period parses (in particular all hour-data fields are
within range). -/
theorem C4_amended (env : TzEnv) (tzName : String) (days : List Day)
    (ln : LocalNow) (henv : resolveTz env tzName = some ln) :
    is_store_open env .absent tzName = .ok false ∧
    is_store_open env .invalid tzName = .ok false ∧
    ((∀ d ∈ days, ∀ p ∈ d.periods.getD [], periodParses p = true) →
      ∃ b, is_store_open env (.parsed days) tzName = .ok b) ∧
    ((∀ d ∈ days, dayMatches ln d = true →
        ∀ p ∈ d.periods.getD [], periodOpen ln p = .ok false) →
      is_store_open env (.parsed days) tzName = .ok false) ∧
    (env (if tzName = "" then "US/Central" else tzName) = none →
      is_store_open env (.parsed days) tzName =
        is_store_open env (.parsed days) "US/Central") := by
  refine ⟨rfl, rfl, ?_, ?_, ?_⟩
  · intro h
    obtain ⟨b, hb⟩ := scanDays_ok ln days h
    exact ⟨b, by simp only [is_store_open, henv]; exact hb⟩
  · intro h
    simp only [is_store_open, henv]
    exact scanDays_false ln days h
  · intro hnone
    have h1 : resolveTz env tzName = env "US/Central" := by
      unfold resolveTz
      rw [hnone]
    have h2 : resolveTz env "US/Central" = env "US/Central" := by
      unfold resolveTz
      rw [if_neg (by decide : ¬("US/Central" : String) = "")]
      rcases hc : env "US/Central" with _ | ln' <;> simp [hc]
    simp only [is_store_open, h1, h2]

/-- C4 witness: for the empty parsed schedule in a known zone, every
fail-closed clause of the amended statement applies; in particular the
result is `.ok false` both for `absent` and for a no-match schedule. -/
theorem C4_witness :
    is_store_open envC4 .absent "US/Central" = .ok false ∧
    is_store_open envC4 (.parsed []) "US/Central" = .ok false := by
  have h := C4_amended envC4 "US/Central" [] ⟨"Monday", ⟨12, 0, 0⟩⟩ rfl
  exact ⟨h.1, h.2.2.2.1 (by simp)⟩

/-! ## Filename handling and the Screenshot Selector -/

/-- `url.split("/")[-1]`: the substring after the last `/`. -/
def lastComponent (s : String) : String :=
  String.mk ((s.data.reverse.takeWhile (fun c => c != '/')).reverse)

/-- `filename.split(".")[0]`: the prefix before the first `.`. -/
def upToFirstDot (s : String) : String :=
  String.mk (s.data.takeWhile (fun c => c != '.'))

/-- The digit characters of a string, in order
(`"".join(ch for ch in s if ch.isdigit())`). -/
def pyDigits (s : String) : String :=
  String.mk (s.data.filter Char.isDigit)

/-- `s.replace(".jpg", "")`: Python's left-to-right non-overlapping
removal of every `".jpg"` occurrence, specialized to that pattern. -/
def removeJpg : List Char → List Char
  | '.' :: 'j' :: 'p' :: 'g' :: rest => removeJpg rest
  | c :: rest => c :: removeJpg rest
  | [] => []

/-- `filename.replace(".jpg", "")` as a `String` operation. -/
def removeJpgStr (s : String) : String := String.mk (removeJpg s.data)

/-- Environment for `datetime.now(pytz.timezone(name)).strftime("%Y%m%d")`:
per recognized timezone name, the current local date string. -/
abbrev TzDateEnv := String → Option String

/-- `filter_screenshots_for_today(file_urls, timezone_name, license_key)`.
The license key is only used for logging and is omitted. -/
def filter_screenshots_for_today (env : TzDateEnv) (file_urls : List String)
    (timezone_name : String) : List String :=
  match env timezone_name with
  | none => []
  | some current_date =>
    (file_urls.take 10).filter (fun url =>
      url != "" && (removeJpgStr (lastComponent url)).take 8 == current_date)

/-- The matching rule claimed by the spec (digit-only extraction from the
filename, non-digit separators ignored), for comparison with the code's
raw 8-character prefix rule. -/
def specMatchesToday (url today : String) : Bool :=
  (pyDigits (lastComponent url)).take 8 == today

/-- Date environment used in the C5 claims. -/
def envC5 : TzDateEnv :=
  fun s => if s = "America/Chicago" then some "20240115" else none

/-- C5 counterexample: the claim says a URL matches today iff the 8-digit
prefix of its digit-only extracted timestamp equals today's `YYYYMMDD`
(non-digit separators ignored, never rejected).  The code instead
compares the raw first 8 characters of the filename (with `".jpg"`
occurrences removed): for `"https://x/2024-01-15-143000.jpg"` on
2024-01-15 the digit-only rule matches, but the code compares
`"2024-01-"` and filters the URL out. -/
theorem C5_counterexample :
    specMatchesToday "https://x/2024-01-15-143000.jpg" "20240115" = true ∧
    filter_screenshots_for_today envC5 ["https://x/2024-01-15-143000.jpg"]
      "America/Chicago" = [] :=
  ⟨rfl, rfl⟩

/-- C5 amended: the Screenshot Selector considers at most the first 10
URLs in input order without re-sorting, a non-empty URL matches today
iff the first 8 characters of its filename with `".jpg"` occurrences
removed equal today's `YYYYMMDD` string (no digit-only extraction), and
zero matches yield an empty list rather than an error. -/
theorem C5_amended (env : TzDateEnv) (urls : List String) (tz today : String)
    (h : env tz = some today) :
    (∀ u, u ∈ filter_screenshots_for_today env urls tz ↔
      u ∈ urls.take 10 ∧ u ≠ "" ∧
        (removeJpgStr (lastComponent u)).take 8 = today) ∧
    (filter_screenshots_for_today env urls tz).Sublist (urls.take 10) := by
  constructor
  · intro u
    simp only [filter_screenshots_for_today, h, List.mem_filter,
      Bool.and_eq_true, bne_iff_ne, ne_eq, beq_iff_eq, and_assoc]
  · simp only [filter_screenshots_for_today, h]
    exact List.filter_sublist _

/-- C5 witness: a URL whose filename starts with today's date string is
kept by the selector. -/
theorem C5_witness :
    "https://x/20240115143000.jpg" ∈
      filter_screenshots_for_today envC5 ["https://x/20240115143000.jpg"]
        "America/Chicago" :=
  ((C5_amended envC5 ["https://x/20240115143000.jpg"] "America/Chicago"
      "20240115" rfl).1 "https://x/20240115143000.jpg").mpr
    ⟨by simp, by decide, rfl⟩

/-! ## Timestamp extraction (`_extract_timestamp_from_url`)

`datetime.strptime(raw, "%Y%m%d%H%M%S")` / `"%Y%m%d"` followed by the
`datetime` constructor's validation; `tz.localize` only attaches tzinfo
and does not affect `strftime("%Y-%m-%d %H:%M:%S")`, so the timezone
argument does not influence the returned string. -/

structure DT6 where
  y : Nat
  mo : Nat
  d : Nat
  h : Nat
  mi : Nat
  s : Nat

def isLeap (y : Nat) : Bool :=
  y % 4 = 0 && (y % 100 ≠ 0 || y % 400 = 0)

def daysInMonth (y m : Nat) : Nat :=
  if m = 2 then (if isLeap y then 29 else 28)
  else if m = 4 ∨ m = 6 ∨ m = 9 ∨ m = 11 then 30
  else 31

/-- The `datetime(y, mo, d, h, mi, s)` constructor: `None` models the
`ValueError` it raises on out-of-range fields (caught by the enclosing
`try` in `_extract_timestamp_from_url`). -/
def mkDatetime (y mo d h mi s : Nat) : Option DT6 :=
  if 1 ≤ y ∧ y ≤ 9999 ∧ 1 ≤ mo ∧ mo ≤ 12 ∧ 1 ≤ d ∧ d ≤ daysInMonth y mo ∧
      h ≤ 23 ∧ mi ≤ 59 ∧ s ≤ 59 then
    some ⟨y, mo, d, h, mi, s⟩
  else none

def match4Digits : List Char → Option (Nat × List Char)
  | a :: b :: c :: d :: rest =>
    if a.isDigit ∧ b.isDigit ∧ c.isDigit ∧ d.isDigit then
      some (digitVal a * 1000 + digitVal b * 100 + digitVal c * 10 + digitVal d,
        rest)
    else none
  | _ => none

/-- `datetime.strptime(s, "%Y%m%d%H%M%S")`: the compiled regex must
consume the whole string, then the `datetime` constructor validates. -/
def strptimeYmdHMS (s : String) : Option DT6 := do
  let (y, r1) ← match4Digits s.data
  let (mo, r2) ← matchMonth r1
  let (d, r3) ← matchDayNum r2
  let (h, r4) ← matchHour24 r3
  let (mi, r5) ← matchMin r4
  let (sec, r6) ← matchSec r5
  if r6 = [] then mkDatetime y mo d h mi sec else none

/-- `datetime.strptime(s, "%Y%m%d")`. -/
def strptimeYmd (s : String) : Option DT6 := do
  let (y, r1) ← match4Digits s.data
  let (mo, r2) ← matchMonth r1
  let (d, r3) ← matchDayNum r2
  if r3 = [] then mkDatetime y mo d 0 0 0 else none

/-- Zero-padded decimal rendering (as `strftime` does). -/
def padNum (w n : Nat) : String :=
  let s := toString n
  String.mk (List.replicate (w - s.length) '0') ++ s

/-- `dt.strftime("%Y-%m-%d %H:%M:%S")`. -/
def fmtDT (dt : DT6) : String :=
  padNum 4 dt.y ++ "-" ++ padNum 2 dt.mo ++ "-" ++ padNum 2 dt.d ++ " " ++
    padNum 2 dt.h ++ ":" ++ padNum 2 dt.mi ++ ":" ++ padNum 2 dt.s

/-- `_extract_timestamp_from_url(url, timezone_name)`.  Total: every
failure path returns `""`. -/
def _extract_timestamp_from_url (url : String) (timezone_name : String) :
    String :=
  let filename := lastComponent url
  let name_no_ext := upToFirstDot filename
  let raw := pyDigits name_no_ext
  if raw.length < 8 then ""
  else if 14 ≤ raw.length then
    match strptimeYmdHMS (raw.take 14) with
    | some dt => fmtDT dt
    | none => ""
  else
    match strptimeYmd (raw.take 8) with
    | some dt => fmtDT dt
    | none => ""

/-- C8: timestamp extraction is total and round-trips the examples:
`"https://x/20240115143000.jpg"` yields `"2024-01-15 14:30:00"`,
`"https://x/junk.jpg"` yields `""` (no exception), and any URL whose
filename holds fewer than 8 digit characters yields `""`. -/
theorem C8_extract :
    _extract_timestamp_from_url "https://x/20240115143000.jpg"
      "America/Chicago" = "2024-01-15 14:30:00" ∧
    _extract_timestamp_from_url "https://x/junk.jpg" "America/Chicago" = "" ∧
    ∀ url tzName : String, (pyDigits (lastComponent url)).length < 8 →
      _extract_timestamp_from_url url tzName = "" := by
  refine ⟨rfl, rfl, ?_⟩
  intro url tzName h
  have hle : (pyDigits (upToFirstDot (lastComponent url))).length ≤
      (pyDigits (lastComponent url)).length := by
    show ((((lastComponent url).data.takeWhile (fun c => c != '.')).filter
        Char.isDigit)).length ≤
      (((lastComponent url).data.filter Char.isDigit)).length
    exact ((List.takeWhile_sublist _).filter _).length_le
  simp only [_extract_timestamp_from_url]
  rw [if_pos (lt_of_le_of_lt hle h)]

/-- C8 witness: a filename with no digits at all extracts to `""`. -/
theorem C8_witness :
    _extract_timestamp_from_url "https://x/nodigits.png" "UTC" = "" :=
  C8_extract.2.2 "https://x/nodigits.png" "UTC" (by decide)

/-! ## Image classifier: black-frame test (`is_black_screen`) -/

/-- A pixel as PIL sees it: three 0–255 channels. -/
structure RGB where
  r : Fin 256
  g : Fin 256
  b : Fin 256
deriving DecidableEq

/-- PIL's RGB→L luminance conversion (ITU-R 601-2), as implemented:
`L = (R*19595 + G*38470 + B*7471 + 0x8000) >> 16`. -/
def lumaL (p : RGB) : Nat :=
  (p.r.val * 19595 + p.g.val * 38470 + p.b.val * 7471 + 32768) / 65536

/-- `image.convert("L")`: the image as a list of luminance values. -/
def convertL (img : List RGB) : List Nat := img.map lumaL

/-- `grayscale_image.histogram()`: one bin per luminance value 0–255. -/
def histogram (pixels : List Nat) : List Nat :=
  (List.range 256).map (fun v => pixels.count v)

/-- `is_black_screen(image)`: black ratio above 0.9.  The Python float
ratio is modeled as a rational; the claims' inputs are far from the
representation boundary. -/
def is_black_screen (img : List RGB) : Bool :=
  let hist := histogram (convertL img)
  match hist with
  | [] => false
  | black_pixels :: _ =>
    let total_pixels := hist.sum
    let black_frac : ℚ :=
      if total_pixels ≠ 0 then (black_pixels : ℚ) / (total_pixels : ℚ) else 0
    decide (black_frac > 9 / 10)

lemma lumaL_lt (p : RGB) : lumaL p < 256 := by
  have hr := p.r.isLt
  have hg := p.g.isLt
  have hb := p.b.isLt
  have hlt : p.r.val * 19595 + p.g.val * 38470 + p.b.val * 7471 + 32768 <
      256 * 65536 := by omega
  exact Nat.div_lt_of_lt_mul hlt

lemma sum_map_add (l : List Nat) (f g : Nat → Nat) :
    (l.map (fun v => f v + g v)).sum = (l.map f).sum + (l.map g).sum := by
  induction l with
  | nil => rfl
  | cons a t ih => simp only [List.map_cons, List.sum_cons, ih]; omega

lemma sum_indicator (n x : Nat) (h : x < n) :
    ((List.range n).map (fun v => if v = x then 1 else 0)).sum = 1 := by
  induction n with
  | zero => omega
  | succ n ih =>
    rw [List.range_succ, List.map_append, List.sum_append]
    by_cases hx : x = n
    · subst hx
      have hz : ((List.range x).map (fun v => if v = x then 1 else 0)).sum = 0 := by
        apply List.sum_eq_zero
        intro y hy
        obtain ⟨v, hv, rfl⟩ := List.mem_map.1 hy
        simp only [List.mem_range] at hv
        simp [Nat.ne_of_lt hv]
      rw [hz]
      simp
    · have hlt : x < n := by omega
      rw [ih hlt]
      simp [Ne.symm hx]

lemma histogram_sum (l : List Nat) (h : ∀ x ∈ l, x < 256) :
    (histogram l).sum = l.length := by
  induction l with
  | nil =>
    apply List.sum_eq_zero
    intro y hy
    obtain ⟨v, _, rfl⟩ := List.mem_map.1 hy
    exact List.count_nil v
  | cons a t ih =>
    have ha : a < 256 := h a (by simp)
    have iht := ih (fun x hx => h x (List.mem_cons_of_mem a hx))
    unfold histogram at iht ⊢
    have hcc : (fun v => (a :: t).count v) =
        fun v => t.count v + (if v = a then 1 else 0) := by
      funext v
      rw [List.count_cons]
      by_cases hv : v = a
      · subst hv; simp
      · simp [hv, Ne.symm hv]
    rw [hcc, sum_map_add, iht, sum_indicator 256 a ha, List.length_cons]

lemma histogram_head (l : List Nat) :
    histogram l = l.count 0 :: (List.range 255).map (fun v => l.count (v + 1)) := by
  unfold histogram
  rw [show (256 : Nat) = 255 + 1 from rfl, List.range_succ_eq_map]
  simp [List.map_map, Function.comp_def]

/-- Closed form of `is_black_screen`: the histogram of a pixel list is
never empty, its bin 0 counts the zero-luminance pixels, and its total
is the pixel count. -/
lemma is_black_char (img : List RGB) :
    is_black_screen img =
      if img.length ≠ 0 then
        decide (((convertL img).count 0 : ℚ) / (img.length : ℚ) > 9 / 10)
      else false := by
  have hbound : ∀ x ∈ convertL img, x < 256 := by
    intro x hx
    obtain ⟨p, _, rfl⟩ := List.mem_map.1 hx
    exact lumaL_lt p
  have hsum : (histogram (convertL img)).sum = img.length := by
    rw [histogram_sum (convertL img) hbound]
    exact List.length_map _ _
  have hh := histogram_head (convertL img)
  unfold is_black_screen
  rw [hh]
  dsimp only
  rw [← hh, hsum]
  by_cases hl : img.length ≠ 0
  · rw [if_pos hl, if_pos hl]
  · rw [if_neg hl, if_neg hl, decide_eq_false_iff_not]
    norm_num

/-- The two demonstration images of the claim. -/
def allBlackImg : List RGB := [⟨0, 0, 0⟩, ⟨0, 0, 0⟩]

def halfBlackImg : List RGB := [⟨0, 0, 0⟩, ⟨255, 255, 255⟩]

/-- C6: the black-frame test computes
`black_ratio = count(luminance == 0) / total_pixel_count` and reports
black exactly when that ratio exceeds 0.90; a degenerate (empty) image
is not classified black; a 100%-black image is black and a 50%-black
image is not. -/
theorem C6_blackframe :
    (∀ img : List RGB, img ≠ [] →
      (is_black_screen img = true ↔
        ((convertL img).count 0 : ℚ) / (img.length : ℚ) > 9 / 10)) ∧
    is_black_screen [] = false ∧
    is_black_screen allBlackImg = true ∧
    is_black_screen halfBlackImg = false := by
  refine ⟨?_, ?_, ?_, ?_⟩
  · intro img hne
    rw [is_black_char, if_pos (fun h0 => hne (List.length_eq_zero.1 h0)),
      decide_eq_true_eq]
  · rw [is_black_char]
    norm_num
  · rw [is_black_char, if_pos (by norm_num [allBlackImg] : allBlackImg.length ≠ 0),
      decide_eq_true_eq]
    rw [show (convertL allBlackImg).count 0 = 2 from rfl,
      show allBlackImg.length = 2 from rfl]
    norm_num
  · rw [is_black_char, if_pos (by norm_num [halfBlackImg] : halfBlackImg.length ≠ 0),
      decide_eq_false_iff_not]
    rw [show (convertL halfBlackImg).count 0 = 1 from rfl,
      show halfBlackImg.length = 2 from rfl]
    norm_num

/-- C6 witness: the ratio characterization applied to the all-black
image. -/
theorem C6_witness :
    is_black_screen allBlackImg = true ↔
      ((convertL allBlackImg).count 0 : ℚ) / (allBlackImg.length : ℚ) > 9 / 10 :=
  C6_blackframe.1 allBlackImg (by decide)

/-! ## OCR text matching and the per-license classification loop -/

/-- The fixed error-phrase vocabulary (`ERROR_MESSAGES`).  The Python
object is a `set`; its iteration order only affects the order of
`detected_errors`, never the counts, the membership, or the sorted
unique rendering, so the source listing order is used. -/
def ERROR_MESSAGES : List String :=
  [ "something went wrong, please contact your administrator"
  , "getting player data"
  , "downloading player assets"
  , "setting up programmatic"
  , "getting host schedule"
  , "refetch started"
  , "player is healthy"
  , "updates are available"
  , "downloading updates" ]

/-- Python's `needle in haystack` substring test. -/
def pySubstr (needle hay : String) : Bool :=
  hay.data.tails.any (fun t => needle.data.isPrefixOf t)

/-- `s.strip()`. -/
def pyStrip (s : String) : String :=
  String.mk
    (((s.data.dropWhile Char.isWhitespace).reverse.dropWhile
        Char.isWhitespace).reverse)

/-- `s.lower()` (ASCII, as OCR output is). -/
def pyLower (s : String) : String := String.mk (s.data.map Char.toLower)

/-- Per-URL network/OCR outcome: `load = none` models a failed image
download (`load_image_from_url` returned `None`); `ocr = none` models a
`pytesseract` exception (Tesseract missing or any other OCR error);
`ocr = some raw` is the raw recognized text. -/
structure ImgObs where
  load : Option (List RGB)
  ocr : Option String

abbrev ClassifyEnv := String → ImgObs

/-- The mutable loop state of `_process_license`'s screenshot loop. -/
structure ScanState where
  black_screens : Nat
  detected_errors : List String
  error_screenshot_url : Option String
deriving DecidableEq

/-- One iteration of the `for url in todays_urls[:4]` loop: skip failed
downloads; a black screen is counted and skipped before OCR; OCR
failures are skipped; otherwise every matching phrase is appended and
the first URL with any match is remembered. -/
def processUrl (env : ClassifyEnv) (st : ScanState) (url : String) : ScanState :=
  match (env url).load with
  | none => st
  | some img =>
    if is_black_screen img then
      { st with black_screens := st.black_screens + 1 }
    else
      match (env url).ocr with
      | none => st
      | some raw =>
        let text := pyLower (pyStrip raw)
        let found := ERROR_MESSAGES.filter (fun e => pySubstr e text)
        { st with
          detected_errors := st.detected_errors ++ found
          error_screenshot_url :=
            if st.error_screenshot_url = none ∧ found ≠ [] then some url
            else st.error_screenshot_url }

/-- The whole screenshot loop over the first 4 of today's URLs. -/
def scanImages (env : ClassifyEnv) (urls : List String) : ScanState :=
  (urls.take 4).foldl (processUrl env) ⟨0, [], none⟩

/-- The status decision at the end of `_process_license`. -/
def screenshot_status (black_screens error_count : Nat) : String :=
  if black_screens ≥ 3 then "OPEN_HOURS_BLACK_SCREEN"
  else if error_count ≥ 5 then "STUCK_ON_ERROR"
  else if error_count ≥ 1 then "ERROR_DISPLAYED"
  else "OK"

/-- `max(todays_urls, key=lambda u: u.split("/")[-1])`: Python's `max`
keeps the first element whose key is not strictly exceeded later. -/
def latest_by_filename : List String → Option String
  | [] => none
  | x :: xs =>
    some (xs.foldl
      (fun best u => if lastComponent best < lastComponent u then u else best) x)

/-- The classified part of the row `_process_license` appends for a
device with a non-empty list of today's screenshots. -/
structure EvalRow where
  display_url : String
  display_ts : String
  status : String
  error_text : String
deriving DecidableEq

/-- The `latest_url` computation including the `except ValueError`
fallback to `todays_urls[0]` (the caller guarantees non-emptiness, so
the fallback arm is unreachable there). -/
def latestUrlOf (todays_urls : List String) : String :=
  match latest_by_filename todays_urls with
  | some u => u
  | none => todays_urls.headD ""

/-- Lines 500–588 of `_process_license`: latest-by-filename selection,
the classification loop, representative-screenshot choice and status. -/
def evaluate_screenshots (env : ClassifyEnv) (tzName : String)
    (todays_urls : List String) : EvalRow :=
  let latest_url := latestUrlOf todays_urls
  let latest_ts := _extract_timestamp_from_url latest_url tzName
  let st := scanImages env todays_urls
  let error_count := st.detected_errors.length
  let unique_errors := List.insertionSort (fun a b => a ≤ b) st.detected_errors.dedup
  let display : String × String :=
    match st.error_screenshot_url with
    | some u =>
      if 1 ≤ error_count ∧ u ≠ "" then (u, _extract_timestamp_from_url u tzName)
      else (latest_url, latest_ts)
    | none => (latest_url, latest_ts)
  { display_url := display.1
    display_ts := display.2
    status := screenshot_status st.black_screens error_count
    error_text := String.intercalate ", " unique_errors }

/-- Whether the loop counts `url` as a black screen. -/
def urlIsBlack (env : ClassifyEnv) (url : String) : Bool :=
  match (env url).load with
  | none => false
  | some img => is_black_screen img

/-- The phrase matches `url` contributes (empty for failed downloads,
black screens and OCR failures). -/
def urlErrors (env : ClassifyEnv) (url : String) : List String :=
  match (env url).load with
  | none => []
  | some img =>
    if is_black_screen img then []
    else
      match (env url).ocr with
      | none => []
      | some raw =>
        ERROR_MESSAGES.filter (fun e => pySubstr e (pyLower (pyStrip raw)))

/-- Closed form of the loop fold: black count, accumulated matches, and
first-error URL. -/
lemma foldl_process (env : ClassifyEnv) (l : List String) (st : ScanState) :
    (l.foldl (processUrl env) st).black_screens
        = st.black_screens + (l.filter (urlIsBlack env)).length ∧
    (l.foldl (processUrl env) st).detected_errors
        = st.detected_errors ++ l.flatMap (urlErrors env) ∧
    (l.foldl (processUrl env) st).error_screenshot_url
        = (match st.error_screenshot_url with
           | some u => some u
           | none => l.find? (fun u => !(urlErrors env u).isEmpty)) := by
  induction l generalizing st with
  | nil =>
    refine ⟨by simp, by simp, ?_⟩
    rcases st with ⟨b, e, u⟩
    cases u <;> simp
  | cons a t ih =>
    have hblack : urlIsBlack env a = (match (env a).load with
        | none => false
        | some img => is_black_screen img) := rfl
    rcases hl : (env a).load with _ | img
    · have hpu : processUrl env st a = st := by
        simp [processUrl, hl]
      have hub : urlIsBlack env a = false := by simp [urlIsBlack, hl]
      have hue : urlErrors env a = [] := by simp [urlErrors, hl]
      obtain ⟨ihb, ihe, ihu⟩ := ih st
      refine ⟨?_, ?_, ?_⟩
      · simp [List.foldl_cons, hpu, ihb, hub]
      · simp [List.foldl_cons, hpu, ihe, hue]
      · simp only [List.foldl_cons, hpu, ihu]
        rcases st with ⟨b, e, u⟩
        cases u <;> simp [List.find?_cons, hue]
    · by_cases hb : is_black_screen img = true
      · have hpu : processUrl env st a =
            { st with black_screens := st.black_screens + 1 } := by
          simp [processUrl, hl, hb]
        have hub : urlIsBlack env a = true := by simp [urlIsBlack, hl, hb]
        have hue : urlErrors env a = [] := by simp [urlErrors, hl, hb]
        obtain ⟨ihb, ihe, ihu⟩ :=
          ih { st with black_screens := st.black_screens + 1 }
        refine ⟨?_, ?_, ?_⟩
        · simp [List.foldl_cons, hpu, ihb, hub]
          omega
        · simp [List.foldl_cons, hpu, ihe, hue]
        · simp only [List.foldl_cons, hpu, ihu]
          rcases st with ⟨b, e, u⟩
          cases u <;> simp [List.find?_cons, hue]
      · rw [Bool.not_eq_true] at hb
        rcases ho : (env a).ocr with _ | raw
        · have hpu : processUrl env st a = st := by
            simp [processUrl, hl, hb, ho]
          have hub : urlIsBlack env a = false := by simp [urlIsBlack, hl, hb]
          have hue : urlErrors env a = [] := by simp [urlErrors, hl, hb, ho]
          obtain ⟨ihb, ihe, ihu⟩ := ih st
          refine ⟨?_, ?_, ?_⟩
          · simp [List.foldl_cons, hpu, ihb, hub]
          · simp [List.foldl_cons, hpu, ihe, hue]
          · simp only [List.foldl_cons, hpu, ihu]
            rcases st with ⟨b, e, u⟩
            cases u <;> simp [List.find?_cons, hue]
        · set found := ERROR_MESSAGES.filter
              (fun e => pySubstr e (pyLower (pyStrip raw))) with hfound
          have hpu : processUrl env st a =
              { st with
                detected_errors := st.detected_errors ++ found
                error_screenshot_url :=
                  if st.error_screenshot_url = none ∧ found ≠ [] then some a
                  else st.error_screenshot_url } := by
            simp [processUrl, hl, hb, ho, hfound]
          have hub : urlIsBlack env a = false := by simp [urlIsBlack, hl, hb]
          have hue : urlErrors env a = found := by
            simp [urlErrors, hl, hb, ho, hfound]
          obtain ⟨ihb, ihe, ihu⟩ := ih
            { st with
              detected_errors := st.detected_errors ++ found
              error_screenshot_url :=
                if st.error_screenshot_url = none ∧ found ≠ [] then some a
                else st.error_screenshot_url }
          refine ⟨?_, ?_, ?_⟩
          · simp [List.foldl_cons, hpu, ihb, hub]
          · simp [List.foldl_cons, hpu, ihe, hue]
          · simp only [List.foldl_cons, hpu, ihu]
            rcases st with ⟨b, e, u⟩
            rcases u with _ | u0
            · by_cases hf : found = []
              · simp [hf, List.find?_cons, hue]
              · simp [hf, List.find?_cons, hue]
            · simp [List.find?_cons, hue]

/-! ## Claim C1: status precedence -/

lemma evaluate_status (env : ClassifyEnv) (tzName : String) (urls : List String) :
    (evaluate_screenshots env tzName urls).status =
      screenshot_status (scanImages env urls).black_screens
        (scanImages env urls).detected_errors.length := rfl

/-- C1: the Device Status Reducer's strict ordered precedence:
black-screen count ≥ 3 wins over everything, then total phrase-match
count ≥ 5, then ≥ 1, then `OK`. -/
theorem C1_status_precedence (env : ClassifyEnv) (tzName : String)
    (urls : List String) :
    ((scanImages env urls).black_screens ≥ 3 →
      (evaluate_screenshots env tzName urls).status = "OPEN_HOURS_BLACK_SCREEN") ∧
    ((scanImages env urls).black_screens < 3 →
      (scanImages env urls).detected_errors.length ≥ 5 →
      (evaluate_screenshots env tzName urls).status = "STUCK_ON_ERROR") ∧
    ((scanImages env urls).black_screens < 3 →
      (scanImages env urls).detected_errors.length < 5 →
      (scanImages env urls).detected_errors.length ≥ 1 →
      (evaluate_screenshots env tzName urls).status = "ERROR_DISPLAYED") ∧
    ((scanImages env urls).black_screens < 3 →
      (scanImages env urls).detected_errors.length = 0 →
      (evaluate_screenshots env tzName urls).status = "OK") := by
  refine ⟨?_, ?_, ?_, ?_⟩
  · intro h
    rw [evaluate_status]
    unfold screenshot_status
    rw [if_pos h]
  · intro h1 h2
    rw [evaluate_status]
    unfold screenshot_status
    rw [if_neg (by omega), if_pos h2]
  · intro h1 h2 h3
    rw [evaluate_status]
    unfold screenshot_status
    rw [if_neg (by omega), if_neg (by omega), if_pos h3]
  · intro h1 h2
    rw [evaluate_status]
    unfold screenshot_status
    rw [if_neg (by omega), if_neg (by omega), if_neg (by omega)]

/-! Concrete sample for the C1 and C10 witnesses: three 1-pixel black
images and one white image whose OCR text holds two error phrases. -/

def imgBlack : List RGB := [⟨0, 0, 0⟩]

def imgWhite : List RGB := [⟨255, 255, 255⟩]

lemma imgBlack_black : is_black_screen imgBlack = true := by
  rw [is_black_char, if_pos (by norm_num [imgBlack] : imgBlack.length ≠ 0),
    decide_eq_true_eq]
  rw [show (convertL imgBlack).count 0 = 1 from rfl,
    show imgBlack.length = 1 from rfl]
  norm_num

lemma imgWhite_not_black : is_black_screen imgWhite = false := by
  rw [is_black_char, if_pos (by norm_num [imgWhite] : imgWhite.length ≠ 0),
    decide_eq_false_iff_not]
  rw [show (convertL imgWhite).count 0 = 0 from rfl,
    show imgWhite.length = 1 from rfl]
  norm_num

def envC1 : ClassifyEnv := fun u =>
  if u = "e1" then
    ⟨some imgWhite, some "Getting Player Data and Downloading Updates"⟩
  else ⟨some imgBlack, none⟩

def urlsC1 : List String := ["b1", "b2", "b3", "e1"]

lemma envC1_found :
    ERROR_MESSAGES.filter (fun e => pySubstr e
      (pyLower (pyStrip "Getting Player Data and Downloading Updates"))) =
      ["getting player data", "downloading updates"] := by decide

lemma scan_envC1 : scanImages envC1 urlsC1 =
    ⟨3, ["getting player data", "downloading updates"], some "e1"⟩ := by
  have step : ∀ (st : ScanState) (u : String), u ≠ "e1" →
      processUrl envC1 st u = { st with black_screens := st.black_screens + 1 } := by
    intro st u hu
    simp [processUrl, envC1, hu, imgBlack_black]
  have stepE : ∀ st : ScanState, st.error_screenshot_url = none →
      processUrl envC1 st "e1" =
        { st with
          detected_errors :=
            st.detected_errors ++ ["getting player data", "downloading updates"]
          error_screenshot_url := some "e1" } := by
    intro st hu
    simp [processUrl, envC1, imgWhite_not_black, envC1_found, hu]
  show (urlsC1.take 4).foldl (processUrl envC1) ⟨0, [], none⟩ = _
  rw [show urlsC1.take 4 = ["b1", "b2", "b3", "e1"] from rfl]
  simp only [List.foldl_cons, List.foldl_nil]
  rw [step _ "b1" (by decide), step _ "b2" (by decide), step _ "b3" (by decide),
    stepE _ rfl]
  rfl

/-- C1 witness: a 4-image sample with 3 black screens and 2 phrase
matches reduces to `OPEN_HOURS_BLACK_SCREEN`, not `STUCK_ON_ERROR`. -/
theorem C1_witness :
    (scanImages envC1 urlsC1).black_screens = 3 ∧
    (scanImages envC1 urlsC1).detected_errors.length = 2 ∧
    (evaluate_screenshots envC1 "UTC" urlsC1).status =
      "OPEN_HOURS_BLACK_SCREEN" := by
  have h1 : (scanImages envC1 urlsC1).black_screens = 3 := by rw [scan_envC1]
  have h2 : (scanImages envC1 urlsC1).detected_errors.length = 2 := by
    rw [scan_envC1]
    rfl
  exact ⟨h1, h2, (C1_status_precedence envC1 "UTC" urlsC1).1 (by omega)⟩

/-! ## Claim C10: black screens are never OCR'd -/

/-- C10: a black-classified image is skipped before OCR and contributes
zero phrase matches: per image, `urlIsBlack` and a non-empty
`urlErrors` are mutually exclusive; a black image only increments the
black counter; and the two totals are computed from disjoint sets of
sampled images. -/
theorem C10_black_no_ocr (env : ClassifyEnv) :
    (∀ u, urlIsBlack env u = true → urlErrors env u = []) ∧
    (∀ (st : ScanState) (url : String) (img : List RGB),
      (env url).load = some img → is_black_screen img = true →
      (processUrl env st url).black_screens = st.black_screens + 1 ∧
      (processUrl env st url).detected_errors = st.detected_errors ∧
      (processUrl env st url).error_screenshot_url = st.error_screenshot_url) ∧
    (∀ urls : List String,
      (scanImages env urls).black_screens =
        ((urls.take 4).filter (urlIsBlack env)).length ∧
      (scanImages env urls).detected_errors =
        (urls.take 4).flatMap (urlErrors env)) := by
  refine ⟨?_, ?_, ?_⟩
  · intro u hu
    unfold urlIsBlack at hu
    unfold urlErrors
    rcases hl : (env u).load with _ | img
    · rfl
    · rw [hl] at hu
      have hb : is_black_screen img = true := hu
      simp [hb]
  · intro st url img hload hb
    refine ⟨?_, ?_, ?_⟩ <;> simp [processUrl, hload, hb]
  · intro urls
    obtain ⟨hb, he, _⟩ := foldl_process env (urls.take 4) ⟨0, [], none⟩
    exact ⟨by simpa using hb, by simpa using he⟩

/-- C10 witness: in the concrete C1 sample, the black image `b1` is
counted black, contributes no phrases, and leaves the error list
unchanged. -/
theorem C10_witness :
    urlErrors envC1 "b1" = [] ∧
    (processUrl envC1 ⟨0, [], none⟩ "b1").black_screens = 1 ∧
    (processUrl envC1 ⟨0, [], none⟩ "b1").detected_errors = [] := by
  have h := C10_black_no_ocr envC1
  have hload : (envC1 "b1").load = some imgBlack := by simp [envC1]
  have hui : urlIsBlack envC1 "b1" = true := by
    simp [urlIsBlack, envC1, imgBlack_black]
  have h2 := h.2.1 ⟨0, [], none⟩ "b1" imgBlack hload imgBlack_black
  exact ⟨h.1 "b1" hui, by rw [h2.1], by rw [h2.2.1]⟩

/-! ## Claim C7: representative screenshot choice -/

lemma foldl_max_spec (x : String) (xs : List String) :
    (xs.foldl (fun best u =>
        if lastComponent best < lastComponent u then u else best) x = x ∨
      xs.foldl (fun best u =>
        if lastComponent best < lastComponent u then u else best) x ∈ xs) ∧
    lastComponent x ≤ lastComponent (xs.foldl (fun best u =>
        if lastComponent best < lastComponent u then u else best) x) ∧
    ∀ v ∈ xs, lastComponent v ≤ lastComponent (xs.foldl (fun best u =>
        if lastComponent best < lastComponent u then u else best) x) := by
  induction xs generalizing x with
  | nil => exact ⟨Or.inl rfl, le_refl _, by simp⟩
  | cons a t ih =>
    simp only [List.foldl_cons]
    by_cases h : lastComponent x < lastComponent a
    · rw [if_pos h]
      obtain ⟨hm, hx, hall⟩ := ih a
      refine ⟨?_, le_trans (le_of_lt h) hx, ?_⟩
      · rcases hm with hm | hm
        · exact Or.inr (by rw [hm]; exact List.mem_cons_self a t)
        · exact Or.inr (List.mem_cons_of_mem _ hm)
      · intro v hv
        rcases List.mem_cons.1 hv with rfl | hv
        · exact hx
        · exact hall v hv
    · rw [if_neg h]
      obtain ⟨hm, hx, hall⟩ := ih x
      have hax : lastComponent a ≤ lastComponent x := not_lt.1 h
      refine ⟨?_, hx, ?_⟩
      · rcases hm with hm | hm
        · exact Or.inl hm
        · exact Or.inr (List.mem_cons_of_mem _ hm)
      · intro v hv
        rcases List.mem_cons.1 hv with rfl | hv
        · exact le_trans hax hx
        · exact hall v hv

/-- `latest_url` is a member of the list and its filename is
lexicographically maximal. -/
lemma latestUrlOf_spec (urls : List String) (hne : urls ≠ []) :
    latestUrlOf urls ∈ urls ∧
      ∀ v ∈ urls, lastComponent v ≤ lastComponent (latestUrlOf urls) := by
  rcases urls with _ | ⟨x, xs⟩
  · exact absurd rfl hne
  · unfold latestUrlOf latest_by_filename
    dsimp only
    obtain ⟨hm, hx, hall⟩ := foldl_max_spec x xs
    constructor
    · rcases hm with hm | hm
      · rw [hm]; exact List.mem_cons_self x xs
      · exact List.mem_cons_of_mem _ hm
    · intro v hv
      rcases List.mem_cons.1 hv with rfl | hv
      · exact hx
      · exact hall v hv

/-- The representative screenshot pair produced by
`evaluate_screenshots`. -/
lemma evaluate_display (env : ClassifyEnv) (tz : String) (urls : List String) :
    ((evaluate_screenshots env tz urls).display_url,
      (evaluate_screenshots env tz urls).display_ts) =
      match (scanImages env urls).error_screenshot_url with
      | some u =>
        if 1 ≤ (scanImages env urls).detected_errors.length ∧ u ≠ "" then
          (u, _extract_timestamp_from_url u tz)
        else
          (latestUrlOf urls, _extract_timestamp_from_url (latestUrlOf urls) tz)
      | none =>
        (latestUrlOf urls, _extract_timestamp_from_url (latestUrlOf urls) tz) := by
  unfold evaluate_screenshots
  dsimp only

/-- C7: whenever at least one phrase match occurred, the reported
representative screenshot is the first sampled image at which a phrase
was detected (with its URL and extracted timestamp); otherwise it is
the screenshot with the lexicographically greatest filename. -/
theorem C7_representative (env : ClassifyEnv) (tzName : String)
    (urls : List String) (hne : urls ≠ []) (hnb : ∀ u ∈ urls, u ≠ "") :
    ((scanImages env urls).detected_errors ≠ [] →
      ∃ u, (urls.take 4).find? (fun v => !(urlErrors env v).isEmpty) = some u ∧
        (evaluate_screenshots env tzName urls).display_url = u ∧
        (evaluate_screenshots env tzName urls).display_ts =
          _extract_timestamp_from_url u tzName) ∧
    ((scanImages env urls).detected_errors = [] →
      (evaluate_screenshots env tzName urls).display_url = latestUrlOf urls ∧
      (evaluate_screenshots env tzName urls).display_ts =
        _extract_timestamp_from_url (latestUrlOf urls) tzName ∧
      latestUrlOf urls ∈ urls ∧
      ∀ v ∈ urls, lastComponent v ≤ lastComponent (latestUrlOf urls)) := by
  obtain ⟨hb, he, hu⟩ := foldl_process env (urls.take 4) ⟨0, [], none⟩
  have herr : (scanImages env urls).detected_errors =
      (urls.take 4).flatMap (urlErrors env) := by simpa using he
  have hurl : (scanImages env urls).error_screenshot_url =
      (urls.take 4).find? (fun v => !(urlErrors env v).isEmpty) := by
    simpa using hu
  constructor
  · intro hne2
    have hex : ∃ v ∈ urls.take 4, ¬(urlErrors env v = []) := by
      by_contra hcon
      push_neg at hcon
      apply hne2
      rw [herr]
      exact List.flatMap_eq_nil_iff.2 hcon
    obtain ⟨v, hv, hvne⟩ := hex
    have hfs : ((urls.take 4).find?
        (fun v => !(urlErrors env v).isEmpty)).isSome := by
      rw [List.find?_isSome]
      refine ⟨v, hv, ?_⟩
      simp [List.isEmpty_iff, hvne]
    obtain ⟨u, hfind⟩ := Option.isSome_iff_exists.1 hfs
    have humem : u ∈ urls.take 4 := List.mem_of_find?_eq_some hfind
    have hu0 : u ≠ "" := hnb u (List.take_subset _ _ humem)
    have hc : 1 ≤ (scanImages env urls).detected_errors.length ∧ u ≠ "" :=
      ⟨List.length_pos.2 hne2, hu0⟩
    have hd := evaluate_display env tzName urls
    rw [hurl, hfind] at hd
    simp only [] at hd
    rw [if_pos hc] at hd
    exact ⟨u, hfind, congrArg Prod.fst hd, congrArg Prod.snd hd⟩
  · intro hz
    have hzero : ∀ x ∈ urls.take 4, urlErrors env x = [] := by
      rw [herr] at hz
      exact List.flatMap_eq_nil_iff.1 hz
    have hfnone : (urls.take 4).find?
        (fun v => !(urlErrors env v).isEmpty) = none := by
      rw [List.find?_eq_none]
      intro x hx
      simp [hzero x hx]
    have hd := evaluate_display env tzName urls
    rw [hurl, hfnone] at hd
    obtain ⟨hmem, hmax⟩ := latestUrlOf_spec urls hne
    exact ⟨congrArg Prod.fst hd, congrArg Prod.snd hd, hmem, hmax⟩

/-- C7 witness: in the concrete C1 sample the first (and only) image
with a phrase match is `"e1"`, and it is reported. -/
theorem C7_witness :
    (evaluate_screenshots envC1 "UTC" urlsC1).display_url = "e1" := by
  have hb1 : urlErrors envC1 "b1" = [] := by
    simp [urlErrors, envC1, imgBlack_black]
  have hb2 : urlErrors envC1 "b2" = [] := by
    simp [urlErrors, envC1, imgBlack_black]
  have hb3 : urlErrors envC1 "b3" = [] := by
    simp [urlErrors, envC1, imgBlack_black]
  have he1 : urlErrors envC1 "e1" =
      ["getting player data", "downloading updates"] := by
    simp [urlErrors, envC1, imgWhite_not_black, envC1_found]
  have h := (C7_representative envC1 "UTC" urlsC1 (by decide) (by decide)).1
    (by rw [scan_envC1]; decide)
  obtain ⟨u, hfind, hdu, _⟩ := h
  have hcomp : (urlsC1.take 4).find?
      (fun v => !(urlErrors envC1 v).isEmpty) = some "e1" := by
    rw [show urlsC1.take 4 = ["b1", "b2", "b3", "e1"] from rfl]
    simp [List.find?_cons, hb1, hb2, hb3, he1]
  rw [hcomp] at hfind
  cases hfind
  exact hdu

/-! ## Claim C9: version/zone sheet synchronization

Model of `SheetsClient` row operations (`sheets_client.py`) and
`_sync_zone_sheet` (`version_by_zone.py`) over the worksheet cell grid:
a sheet is a list of rows, row 1 the header. -/

abbrev Row := List String

abbrev Sheet := List Row

/-- The column-1 cell of a row (`row[0]`, or the empty cell for a row
with no values). -/
def rowKey (r : Row) : String := r.headD ""

/-- `find_row_by_value(ws, value, col=1)`: 1-based index of the first
row whose column-1 cell equals `value` (gspread `ws.find`, header row
included in the search). -/
def find_row_by_value (sheet : Sheet) (value : String) : Option Nat :=
  match sheet with
  | [] => none
  | r :: rest =>
    if rowKey r = value then some 1
    else (find_row_by_value rest value).map (· + 1)

/-- `ws.update(f"{i}:{i}", [values])`: overwrite row `i` (1-based) from
column A; cells beyond `values` are left in place (zone worksheets are
created with 4 columns, so in practice rows have at most 4 cells). -/
def update_row (sheet : Sheet) (i : Nat) (values : Row) : Sheet :=
  sheet.set (i - 1) (values ++ (sheet.getD (i - 1) []).drop values.length)

/-- `ws.append_row(values)`. -/
def append_row (sheet : Sheet) (values : Row) : Sheet := sheet ++ [values]

/-- `SheetsClient.upsert_row(ws, key_value, values, key_col=1)`. -/
def upsert_row (sheet : Sheet) (key_value : String) (values : Row) : Sheet :=
  match find_row_by_value sheet key_value with
  | some i => update_row sheet i values
  | none => append_row sheet values

/-- `ws.delete_row(i)` (1-based). -/
def delete_row (sheet : Sheet) (i : Nat) : Sheet := sheet.eraseIdx (i - 1)

/-- `SheetsClient.ensure_headers`: overwrite row 1 when it differs. -/
def ensure_headers (sheet : Sheet) (headers : Row) : Sheet :=
  match sheet with
  | [] => [headers]
  | r :: rest =>
    if r = headers then r :: rest
    else (headers ++ r.drop headers.length) :: rest

/-- One entry of `mismatch_results` (shape returned by
`_check_license_versions`). -/
structure MismatchItem where
  license_id : String
  versions : String
  url : String
  status : String
  is_mismatch : Bool
deriving DecidableEq

/-- The `values` list built for the upsert. -/
def itemRow (it : MismatchItem) : Row :=
  [it.license_id, it.versions, it.url, it.status]

def zoneHeaders : Row := ["License IDs", "Versions", "URL", "Status"]

/-- The deletion condition of the stale-row loop: row truthy,
`row[0].strip()` nonempty, and not in `mismatched_ids`. -/
def rowStale (ids : List String) (r : Row) : Bool :=
  !r.isEmpty && pyStrip (rowKey r) != "" &&
    !(ids.contains (pyStrip (rowKey r)))

/-- `for idx, row in enumerate(existing_values[1:], start=2)` filtered
by the stale condition: ascending 1-based indices to delete. -/
def staleIndicesFrom (start : Nat) (ids : List String) : List Row → List Nat
  | [] => []
  | r :: t =>
    (if rowStale ids r then [start] else []) ++ staleIndicesFrom (start + 1) ids t

/-- `_sync_zone_sheet(sheets, zone, mismatch_results)` acting on the
zone worksheet grid: ensure headers, upsert every mismatching license
by key, then delete stale rows bottom-to-top.  The collected indices
are ascending, so `sorted(rows_to_delete, reverse=True)` is their
reversal. -/
def _sync_zone_sheet (sheet : Sheet) (mismatch_results : List MismatchItem) :
    Sheet :=
  let s1 := ensure_headers sheet zoneHeaders
  let mismatched_ids :=
    (mismatch_results.filter (·.is_mismatch)).map (·.license_id)
  let s2 := (mismatch_results.filter (·.is_mismatch)).foldl
    (fun s it => upsert_row s it.license_id (itemRow it)) s1
  let rows_to_delete := staleIndicesFrom 2 mismatched_ids (s2.drop 1)
  rows_to_delete.reverse.foldl (fun s i => delete_row s i) s2

/-! ### Upsert-phase lemmas -/

/-- Direct recursion equivalent of `upsert_row`: replace the first row
whose key matches, else append. -/
def upsertData (rs : List Row) (key : String) (values : Row) : List Row :=
  match rs with
  | [] => [values]
  | r :: t =>
    if rowKey r = key then (values ++ r.drop values.length) :: t
    else r :: upsertData t key values

lemma find_cons (h : Row) (rest : List Row) (v : String) (hh : rowKey h ≠ v) :
    find_row_by_value (h :: rest) v = (find_row_by_value rest v).map (· + 1) := by
  simp [find_row_by_value, hh]

lemma find_pos (rs : List Row) (v : String) (i : Nat)
    (h : find_row_by_value rs v = some i) : 1 ≤ i := by
  induction rs generalizing i with
  | nil => simp [find_row_by_value] at h
  | cons r t ih =>
    unfold find_row_by_value at h
    by_cases hr : rowKey r = v
    · rw [if_pos hr] at h
      injection h with h'
      omega
    · rw [if_neg hr] at h
      rcases hf : find_row_by_value t v with _ | j
      · rw [hf] at h
        simp at h
      · rw [hf] at h
        simp only [Option.map_some'] at h
        injection h with h'
        omega

lemma upsert_row_cons (h : Row) (rs : List Row) (key : String) (values : Row)
    (hh : rowKey h ≠ key) :
    upsert_row (h :: rs) key values = h :: upsert_row rs key values := by
  unfold upsert_row
  rw [find_cons h rs key hh]
  rcases hf : find_row_by_value rs key with _ | i
  · simp [append_row]
  · simp only [Option.map_some']
    have hi : 1 ≤ i := find_pos rs key i hf
    unfold update_row
    have h1 : i + 1 - 1 = (i - 1) + 1 := by omega
    rw [h1, List.set_cons_succ, List.getD_cons_succ]

lemma upsert_eq_data (rs : List Row) (key : String) (values : Row) :
    upsert_row rs key values = upsertData rs key values := by
  induction rs with
  | nil => rfl
  | cons r t ih =>
    by_cases hr : rowKey r = key
    · have hfind : find_row_by_value (r :: t) key = some 1 := by
        unfold find_row_by_value
        rw [if_pos hr]
      unfold upsert_row
      rw [hfind]
      unfold update_row
      simp [upsertData, hr, List.getD_cons_zero, List.set_cons_zero]
    · rw [upsert_row_cons r t key values hr, ih]
      simp [upsertData, hr]

lemma rowKey_append (values rest : Row) (hnev : values ≠ []) :
    rowKey (values ++ rest) = rowKey values := by
  rcases values with _ | ⟨v, vt⟩
  · exact absurd rfl hnev
  · rfl

lemma upsertData_mem4 (rs : List Row) (key : String) (values : Row)
    (hlenv : values.length = 4) (hlen4 : ∀ r ∈ rs, r.length ≤ 4) :
    ∀ x ∈ upsertData rs key values, x = values ∨ x ∈ rs := by
  induction rs with
  | nil =>
    intro x hx
    unfold upsertData at hx
    exact Or.inl (List.mem_singleton.1 hx)
  | cons r t ih =>
    intro x hx
    unfold upsertData at hx
    by_cases hr : rowKey r = key
    · rw [if_pos hr] at hx
      rcases List.mem_cons.1 hx with rfl | hx
      · left
        rw [hlenv, List.drop_eq_nil_of_le (hlen4 r (List.mem_cons_self r t)),
          List.append_nil]
      · exact Or.inr (List.mem_cons_of_mem _ hx)
    · rw [if_neg hr] at hx
      rcases List.mem_cons.1 hx with rfl | hx
      · exact Or.inr (List.mem_cons_self _ _)
      · rcases ih (fun y hy => hlen4 y (List.mem_cons_of_mem _ hy)) x hx with
          hc | hc
        · exact Or.inl hc
        · exact Or.inr (List.mem_cons_of_mem _ hc)

lemma upsertData_len4 (rs : List Row) (key : String) (values : Row)
    (hlenv : values.length = 4) (hlen4 : ∀ r ∈ rs, r.length ≤ 4) :
    ∀ x ∈ upsertData rs key values, x.length ≤ 4 := by
  intro x hx
  rcases upsertData_mem4 rs key values hlenv hlen4 x hx with rfl | h
  · omega
  · exact hlen4 x h

lemma upsertData_filter_ne (rs : List Row) (key : String) (values : Row)
    (k : String) (hnev : values ≠ []) (hv : rowKey values = key)
    (hk : k ≠ key) :
    (upsertData rs key values).filter (fun r => rowKey r == k) =
      rs.filter (fun r => rowKey r == k) := by
  induction rs with
  | nil =>
    unfold upsertData
    have hb : (rowKey values == k) = false := by
      rw [hv]
      exact beq_eq_false_iff_ne.2 (Ne.symm hk)
    simp [hb]
  | cons r t ih =>
    unfold upsertData
    by_cases hr : rowKey r = key
    · rw [if_pos hr]
      have h1 : (rowKey (values ++ r.drop values.length) == k) = false := by
        rw [rowKey_append values _ hnev, hv]
        exact beq_eq_false_iff_ne.2 (Ne.symm hk)
      have h2 : (rowKey r == k) = false := by
        rw [hr]
        exact beq_eq_false_iff_ne.2 (Ne.symm hk)
      rw [List.filter_cons, List.filter_cons, h1, h2]
      simp
    · rw [if_neg hr]
      rw [List.filter_cons, List.filter_cons, ih]

lemma upsertData_filter_self (rs : List Row) (key : String) (values : Row)
    (hnev : values ≠ []) (hv : rowKey values = key)
    (hlenv : values.length = 4)
    (hnd : (rs.map rowKey).Nodup) (hlen4 : ∀ r ∈ rs, r.length ≤ 4) :
    (upsertData rs key values).filter (fun r => rowKey r == key) =
      [values] := by
  induction rs with
  | nil =>
    unfold upsertData
    have hb : (rowKey values == key) = true := by
      rw [hv]
      simp
    simp [hb]
  | cons r t ih =>
    unfold upsertData
    simp only [List.map_cons, List.nodup_cons] at hnd
    by_cases hr : rowKey r = key
    · rw [if_pos hr]
      rw [hlenv, List.drop_eq_nil_of_le (hlen4 r (List.mem_cons_self r t)),
        List.append_nil]
      have hva : (rowKey values == key) = true := by
        rw [hv]
        simp
      rw [List.filter_cons, hva]
      have hnone : t.filter (fun r => rowKey r == key) = [] := by
        apply List.filter_eq_nil.2
        intro x hx hbeq
        have hxk : rowKey x = key := by simpa using hbeq
        apply hnd.1
        rw [hr, ← hxk]
        exact List.mem_map_of_mem rowKey hx
      simp [hnone]
    · rw [if_neg hr]
      have hrb : (rowKey r == key) = false := by simp [hr]
      rw [List.filter_cons, hrb]
      simp only [Bool.false_eq_true, if_false]
      exact ih hnd.2 (fun y hy => hlen4 y (List.mem_cons_of_mem _ hy))

lemma upsertData_keys_nodup (rs : List Row) (key : String) (values : Row)
    (hnev : values ≠ []) (hv : rowKey values = key)
    (hlenv : values.length = 4)
    (hnd : (rs.map rowKey).Nodup) (hlen4 : ∀ r ∈ rs, r.length ≤ 4) :
    ((upsertData rs key values).map rowKey).Nodup := by
  induction rs with
  | nil =>
    simp [upsertData]
  | cons r t ih =>
    unfold upsertData
    simp only [List.map_cons, List.nodup_cons] at hnd
    by_cases hr : rowKey r = key
    · rw [if_pos hr]
      simp only [List.map_cons, List.nodup_cons]
      refine ⟨?_, hnd.2⟩
      rw [rowKey_append values _ hnev, hv, ← hr]
      exact hnd.1
    · rw [if_neg hr]
      simp only [List.map_cons, List.nodup_cons]
      refine ⟨?_, ih hnd.2 (fun y hy => hlen4 y (List.mem_cons_of_mem _ hy))⟩
      intro hmem
      obtain ⟨x, hx, hxk⟩ := List.mem_map.1 hmem
      rcases upsertData_mem4 t key values hlenv
          (fun y hy => hlen4 y (List.mem_cons_of_mem _ hy)) x hx with rfl | hxt
      · rw [hv] at hxk
        exact hr hxk.symm
      · exact hnd.1 (hxk ▸ List.mem_map_of_mem rowKey hxt)

/-! ### The upsert fold over all mismatching items -/

/-- The upsert phase restricted to the data rows. -/
def dataUpsert (rows : List Row) (todo : List MismatchItem) : List Row :=
  todo.foldl (fun rs it => upsertData rs it.license_id (itemRow it)) rows

lemma itemRow_key (it : MismatchItem) : rowKey (itemRow it) = it.license_id := rfl

lemma itemRow_len (it : MismatchItem) : (itemRow it).length = 4 := rfl

lemma itemRow_ne (it : MismatchItem) : itemRow it ≠ [] := by simp [itemRow]

lemma dataUpsert_filter_ne (todo : List MismatchItem) (rows : List Row)
    (k : String) (hk : ∀ it ∈ todo, it.license_id ≠ k) :
    (dataUpsert rows todo).filter (fun r => rowKey r == k) =
      rows.filter (fun r => rowKey r == k) := by
  induction todo generalizing rows with
  | nil => rfl
  | cons it rest ih =>
    show (dataUpsert (upsertData rows it.license_id (itemRow it)) rest).filter
        (fun r => rowKey r == k) = _
    rw [ih _ (fun x hx => hk x (List.mem_cons_of_mem _ hx))]
    exact upsertData_filter_ne rows it.license_id (itemRow it) k
      (itemRow_ne it) (itemRow_key it)
      (Ne.symm (hk it (List.mem_cons_self _ _)))

lemma dataUpsert_spec (todo : List MismatchItem) (rows : List Row)
    (hnd : (rows.map rowKey).Nodup) (hlen4 : ∀ r ∈ rows, r.length ≤ 4)
    (htd : (todo.map (·.license_id)).Nodup) :
    ((dataUpsert rows todo).map rowKey).Nodup ∧
    (∀ x ∈ dataUpsert rows todo, x.length ≤ 4) ∧
    (∀ x ∈ dataUpsert rows todo, x ∈ rows ∨ ∃ it ∈ todo, x = itemRow it) ∧
    (∀ it ∈ todo, (dataUpsert rows todo).filter
        (fun r => rowKey r == it.license_id) = [itemRow it]) := by
  induction todo generalizing rows with
  | nil =>
    exact ⟨hnd, hlen4, fun x hx => Or.inl hx, by simp⟩
  | cons it rest ih =>
    simp only [List.map_cons, List.nodup_cons] at htd
    have hnd' := upsertData_keys_nodup rows it.license_id (itemRow it)
      (itemRow_ne it) (itemRow_key it) (itemRow_len it) hnd hlen4
    have hlen' := upsertData_len4 rows it.license_id (itemRow it)
      (itemRow_len it) hlen4
    obtain ⟨ind, ilen, imem, ifilt⟩ :=
      ih (upsertData rows it.license_id (itemRow it)) hnd' hlen' htd.2
    have hstep : dataUpsert rows (it :: rest) =
        dataUpsert (upsertData rows it.license_id (itemRow it)) rest := rfl
    rw [hstep]
    refine ⟨ind, ilen, ?_, ?_⟩
    · intro x hx
      rcases imem x hx with hx' | ⟨it', hit', rfl⟩
      · rcases upsertData_mem4 rows it.license_id (itemRow it)
            (itemRow_len it) hlen4 x hx' with rfl | hx''
        · exact Or.inr ⟨it, List.mem_cons_self _ _, rfl⟩
        · exact Or.inl hx''
      · exact Or.inr ⟨it', List.mem_cons_of_mem _ hit', rfl⟩
    · intro it' hit'
      rcases List.mem_cons.1 hit' with rfl | hit'
      · rw [dataUpsert_filter_ne rest _ it'.license_id
          (fun x hx hc => htd.1 (hc ▸ List.mem_map_of_mem _ hx))]
        exact upsertData_filter_self rows it'.license_id (itemRow it')
          (itemRow_ne it') (itemRow_key it') (itemRow_len it') hnd hlen4
      · exact ifilt it' hit'

/-- The sheet-level upsert fold keeps the header untouched and acts as
`dataUpsert` on the data rows. -/
lemma sync_upsert_phase (todo : List MismatchItem) (rows : List Row)
    (hids : ∀ it ∈ todo, it.license_id ≠ "License IDs") :
    todo.foldl (fun s it => upsert_row s it.license_id (itemRow it))
        (zoneHeaders :: rows) = zoneHeaders :: dataUpsert rows todo := by
  induction todo generalizing rows with
  | nil => rfl
  | cons it rest ih =>
    simp only [List.foldl_cons]
    rw [upsert_row_cons zoneHeaders rows it.license_id (itemRow it)
      (fun hc => hids it (List.mem_cons_self _ _) hc.symm)]
    rw [upsert_eq_data]
    exact ih (upsertData rows it.license_id (itemRow it))
      (fun x hx => hids x (List.mem_cons_of_mem _ hx))

/-! ### Stale-deletion lemmas -/

lemma staleIndicesFrom_ge (n : Nat) (ids : List String) (l : List Row) :
    ∀ i ∈ staleIndicesFrom n ids l, n ≤ i := by
  induction l generalizing n with
  | nil => simp [staleIndicesFrom]
  | cons r t ih =>
    intro i hi
    unfold staleIndicesFrom at hi
    rcases List.mem_append.1 hi with hi | hi
    · by_cases hs : rowStale ids r
      · rw [if_pos hs] at hi
        have := List.mem_singleton.1 hi
        omega
      · rw [if_neg hs] at hi
        simp at hi
    · have := ih (n + 1) i hi
      omega

lemma staleIndicesFrom_succ (n : Nat) (ids : List String) (l : List Row) :
    staleIndicesFrom (n + 1) ids l = (staleIndicesFrom n ids l).map (· + 1) := by
  induction l generalizing n with
  | nil => rfl
  | cons r t ih =>
    unfold staleIndicesFrom
    rw [List.map_append, ih (n + 1)]
    congr 1
    by_cases hs : rowStale ids r
    · rw [if_pos hs, if_pos hs]
      rfl
    · rw [if_neg hs, if_neg hs]
      rfl

lemma foldl_erase_cons (idxs : List Nat) (hd : Row) (l : List Row)
    (h : ∀ i ∈ idxs, 1 ≤ i) :
    idxs.foldl (fun s i => s.eraseIdx i) (hd :: l) =
      hd :: idxs.foldl (fun s i => s.eraseIdx (i - 1)) l := by
  induction idxs generalizing l with
  | nil => rfl
  | cons i t ih =>
    simp only [List.foldl_cons]
    obtain ⟨j, rfl⟩ : ∃ j, i = j + 1 :=
      ⟨i - 1, by have := h i (List.mem_cons_self _ _); omega⟩
    rw [show (hd :: l).eraseIdx (j + 1) = hd :: l.eraseIdx j from rfl]
    rw [show j + 1 - 1 = j from rfl]
    exact ih _ (fun k hk => h k (List.mem_cons_of_mem _ hk))

lemma erase_stale_data (ids : List String) (l : List Row) :
    ((staleIndicesFrom 1 ids l).reverse).foldl
        (fun s i => s.eraseIdx (i - 1)) l =
      l.filter (fun r => !rowStale ids r) := by
  induction l with
  | nil => rfl
  | cons r t ih =>
    unfold staleIndicesFrom
    rw [staleIndicesFrom_succ 1 ids t, List.reverse_append, List.foldl_append,
      List.reverse_map, List.foldl_map]
    simp only [Nat.add_sub_cancel]
    rw [foldl_erase_cons _ r t
      (fun i hi => staleIndicesFrom_ge 1 ids t i (List.mem_reverse.1 hi))]
    rw [ih]
    by_cases hs : rowStale ids r
    · rw [if_pos hs]
      simp [List.filter_cons, hs]
    · rw [if_neg hs]
      simp [List.filter_cons, hs]

lemma sync_delete (ids : List String) (hd : Row) (rows : List Row) :
    ((staleIndicesFrom 2 ids rows).reverse).foldl
        (fun s i => delete_row s i) (hd :: rows) =
      hd :: rows.filter (fun r => !rowStale ids r) := by
  rw [show (2 : Nat) = 1 + 1 from rfl, staleIndicesFrom_succ 1 ids rows,
    List.reverse_map]
  simp only [delete_row]
  rw [List.foldl_map]
  simp only [Nat.add_sub_cancel]
  rw [foldl_erase_cons _ hd rows
    (fun i hi => staleIndicesFrom_ge 1 ids rows i (List.mem_reverse.1 hi))]
  rw [erase_stale_data]

/-- C9: after a run of `_sync_zone_sheet` over a well-formed zone sheet
(header row in place, data rows with distinct, non-empty,
whitespace-free keys, at most 4 cells each) and mismatch results with
distinct license ids, the worksheet reflects only currently mismatching
devices: the header survives, every mismatching license has exactly one
row holding exactly its upserted values, and every remaining data row's
key is in the current mismatch set (stale rows pruned; the embedded
deletion loop applies its indices bottom-to-top). -/
theorem C9_zone_sync (rows : List Row) (items : List MismatchItem)
    (hrow : ∀ r ∈ rows, r ≠ [] ∧ r.length ≤ 4 ∧
      pyStrip (rowKey r) = rowKey r ∧ rowKey r ≠ "" ∧ rowKey r ≠ "License IDs")
    (hnd : (rows.map rowKey).Nodup)
    (htd : ((items.filter (·.is_mismatch)).map (·.license_id)).Nodup)
    (hit : ∀ it ∈ items.filter (·.is_mismatch), it.license_id ≠ "" ∧
      pyStrip it.license_id = it.license_id ∧ it.license_id ≠ "License IDs") :
    (_sync_zone_sheet (zoneHeaders :: rows) items).headD [] = zoneHeaders ∧
    (∀ it ∈ items.filter (·.is_mismatch),
      ((_sync_zone_sheet (zoneHeaders :: rows) items).drop 1).filter
        (fun r => rowKey r == it.license_id) = [itemRow it]) ∧
    (∀ r ∈ (_sync_zone_sheet (zoneHeaders :: rows) items).drop 1,
      rowKey r ∈ (items.filter (·.is_mismatch)).map (·.license_id)) := by
  have hlen4 : ∀ r ∈ rows, r.length ≤ 4 := fun r hr => (hrow r hr).2.1
  have hids_ne : ∀ it ∈ items.filter (·.is_mismatch),
      it.license_id ≠ "License IDs" := fun it h => (hit it h).2.2
  have hhd : ensure_headers (zoneHeaders :: rows) zoneHeaders =
      zoneHeaders :: rows := by
    simp [ensure_headers]
  have hsheet : _sync_zone_sheet (zoneHeaders :: rows) items =
      zoneHeaders :: (dataUpsert rows (items.filter (·.is_mismatch))).filter
        (fun r =>
          !rowStale ((items.filter (·.is_mismatch)).map (·.license_id)) r) := by
    simp only [_sync_zone_sheet]
    rw [hhd, sync_upsert_phase _ rows hids_ne]
    exact sync_delete _ _ _
  obtain ⟨nd2, len2, mem2, filt2⟩ :=
    dataUpsert_spec (items.filter (·.is_mismatch)) rows hnd hlen4 htd
  refine ⟨by rw [hsheet]; rfl, ?_, ?_⟩
  · intro it hitm
    rw [hsheet]
    rw [show ∀ X : List Row, (zoneHeaders :: X).drop 1 = X from fun X => rfl]
    rw [List.filter_filter]
    have hpred : ∀ r ∈ dataUpsert rows (items.filter (·.is_mismatch)),
        ((rowKey r == it.license_id) &&
          !rowStale ((items.filter (·.is_mismatch)).map (·.license_id)) r) =
          (rowKey r == it.license_id) := by
      intro r hr
      by_cases hk : rowKey r = it.license_id
      · have hstrip : pyStrip (rowKey r) = rowKey r := by
          rcases mem2 r hr with hr' | ⟨it', hit', rfl⟩
          · exact (hrow r hr').2.2.1
          · rw [itemRow_key]
            exact (hit it' hit').2.1
        have hcont : ((items.filter (·.is_mismatch)).map
            (·.license_id)).contains (pyStrip (rowKey r)) = true := by
          rw [hstrip, hk]
          have hmem : it.license_id ∈
              (items.filter (·.is_mismatch)).map (·.license_id) :=
            List.mem_map_of_mem _ hitm
          exact List.elem_eq_true_of_mem hmem
        have hsf : rowStale
            ((items.filter (·.is_mismatch)).map (·.license_id)) r = false := by
          unfold rowStale
          rw [hcont]
          simp
        rw [hsf]
        simp
      · have hb : (rowKey r == it.license_id) = false :=
          beq_eq_false_iff_ne.2 hk
        rw [hb]
        simp
    rw [List.filter_congr hpred]
    exact filt2 it hitm
  · intro r hr
    rw [hsheet] at hr
    rw [show ∀ X : List Row, (zoneHeaders :: X).drop 1 = X from fun X => rfl]
      at hr
    obtain ⟨hrm, hrs⟩ := List.mem_filter.1 hr
    have hstale : rowStale
        ((items.filter (·.is_mismatch)).map (·.license_id)) r = false := by
      simpa using hrs
    rcases mem2 r hrm with hr' | ⟨it', hit', rfl⟩
    · obtain ⟨hne, _, hstrip, hkey, _⟩ := hrow r hr'
      unfold rowStale at hstale
      rw [hstrip] at hstale
      have hie : r.isEmpty = false := by
        cases r
        · exact absurd rfl hne
        · rfl
      rw [hie] at hstale
      simp only [Bool.not_false, Bool.true_and] at hstale
      have hbne : (rowKey r != "") = true := bne_iff_ne.2 hkey
      rw [hbne] at hstale
      simp only [Bool.true_and, Bool.not_eq_false'] at hstale
      exact List.mem_of_elem_eq_true hstale
    · rw [itemRow_key]
      exact List.mem_map_of_mem _ hit'

/-- Concrete instance for the C9 witness: one previously mismatching
license `A` that recovered, one still-broken license `B` already on the
sheet, one newly broken license `C`, and one matching license `D`. -/
def rowsW : List Row :=
  [["A", "Server: 1, UI: 1", "uA", "old"], ["B", "Server: 1, UI: 2", "uB", "old"]]

def itemB : MismatchItem :=
  ⟨"B", "Server: 1, UI: 3", "uB2", "Version mismatch - player restart signal sent", true⟩

def itemC : MismatchItem :=
  ⟨"C", "Server: 2, UI: 9", "uC", "Version mismatch - FAILED to send restart signal", true⟩

def itemD : MismatchItem := ⟨"D", "Server: 2, UI: 9", "uD", "OK", false⟩

def itemsW : List MismatchItem := [itemB, itemC, itemD]

/-- C9 witness: after the sync, the header is intact, license `B` has
exactly one row carrying its new values, and every data row's key is a
currently mismatching license. -/
theorem C9_witness :
    (_sync_zone_sheet (zoneHeaders :: rowsW) itemsW).headD [] = zoneHeaders ∧
    ((_sync_zone_sheet (zoneHeaders :: rowsW) itemsW).drop 1).filter
      (fun r => rowKey r == "B") = [itemRow itemB] := by
  have h := C9_zone_sync rowsW itemsW (by decide) (by decide) (by decide)
    (by decide)
  have hb : itemB ∈ itemsW.filter (·.is_mismatch) := by decide
  exact ⟨h.1, h.2.1 itemB hb⟩

end NCMon
